import Mathlib

/-!
Shallow embedding of `src/sync_libraries.py` (class `ComicSyncManager`).

Modelling conventions:
* The filesystem is a list of file paths (`List String`), with membership as
  "the file exists".  Directories are implicit: `os.makedirs` never creates or
  deletes files, and the final empty-directory sweep (`os.rmdir` on directories
  that are empty and do not end in `.git`) cannot delete files either, so both
  are identity on the modelled state.
* `os.path.join a b` is modelled as `a ++ "/" ++ b` (roots are assumed not to
  end in a separator, relative parts not to start with one).
* Failures of the filesystem primitives (`os.remove`, `os.symlink`,
  `shutil.copy`) are driven by an explicit oracle; Python exceptions are
  modelled by threading an optional error next to the mutated state, and
  `try/except` blocks by matching on that error.
* The series index is a Python float in the source; it is idealised here as an
  exact rational.  The format `f"{x:02.1f}"` rounds to one decimal digit
  (half-to-even) and pads with zeros to a minimum total width of 2.
* `str.isalnum`/`str.lower`/`str.strip` are modelled by the corresponding
  ASCII character operations.
-/

namespace CalibreSync

/-- One row of the `data` table for a book: per-format file information
(`name`, `last_modified`, `size` as built in `_get_metadata_from_db`). -/
structure FormatEntry where
  name : String
  last_modified : String
  size : Nat
deriving DecidableEq, Repr

/-- The `metadata` sub-object built in `_get_metadata_from_db`
(`author_sort`, `timestamp`, `pubdate`). -/
structure BookMetadata where
  author_sort : String
  timestamp : String
  pubdate : String
deriving DecidableEq, Repr

/-- One value of the `current_metadata` mapping built in
`_get_metadata_from_db`: title, library-relative path, optional series name,
series index, the format mapping and the metadata sub-object. -/
structure BookData where
  title : String
  path : String
  series : Option String
  series_index : Option ℚ
  formats : List (String × FormatEntry)
  metadata : BookMetadata
deriving DecidableEq, Repr

/-- The configuration of a `ComicSyncManager` instance plus the module-level
`LIBRARY_METHOD` global consulted by `_process_file`. -/
structure Config where
  library_path : String
  output_path : String
  library_method : String
deriving DecidableEq, Repr

/-- Python dict lookup on an association list (first binding wins; Python
dicts have unique keys, which the theorems take as hypotheses where needed). -/
def lookup? {α : Type} (k : String) : List (String × α) → Option α
  | [] => none
  | (k', v) :: rest => if k' = k then some v else lookup? k rest

/-- `os.path.exists` over the modelled file set. -/
def osPathExists (fs : List String) (p : String) : Bool := decide (p ∈ fs)

/-- Python truthiness of the `series` field (`None` and `""` are falsy). -/
def pyTruthyStr : Option String → Bool
  | none => false
  | some s => !(s = "")

/-- Python truthiness of the `series_index` field (`None` and `0` are falsy). -/
def pyTruthyIdx : Option ℚ → Bool
  | none => false
  | some q => !(q = 0)

/-- Python `str.strip()` on a character list: drop whitespace from both
ends (after the sanitising filter only `' '` can occur at either end). -/
def stripChars (l : List Char) : List Char :=
  ((l.dropWhile Char.isWhitespace).reverse.dropWhile Char.isWhitespace).reverse

/-- The sanitisation applied to titles and series names in `_get_target_path`:
`"".join(c for c in s if c.isalnum() or c in (' ', '-', '_')).strip()`. -/
def pythonClean (s : String) : String :=
  String.mk (stripChars (s.data.filter fun c =>
    c.isAlphanum || c = ' ' || c = '-' || c = '_'))

/-- `x * 10` rounded half-to-even to an integer, computed on the exact
rational: the rounding step of formatting `x` with one decimal digit. -/
def roundTenths (q : ℚ) : ℤ :=
  let n10 : ℤ := q.num * 10
  let d : ℤ := (q.den : ℤ)
  let f : ℤ := Int.fdiv n10 d
  let r : ℤ := n10 - f * d
  if 2 * r < d then f
  else if d < 2 * r then f + 1
  else if f % 2 = 0 then f else f + 1

/-- Python `f"{q:02.1f}"`: one decimal digit, zero-padded to minimum total
width 2 (the width counts the sign, integer digits, point and decimal digit,
so with one decimal digit the padding never actually fires). -/
def pyFormat_02_1f (q : ℚ) : String :=
  let t := roundTenths q
  let sign := if t < 0 then "-" else ""
  let digits := toString (t.natAbs / 10) ++ "." ++ toString (t.natAbs % 10)
  let pad := 2 - (sign.length + digits.length)
  sign ++ String.mk (List.replicate pad '0') ++ digits

/-- `ComicSyncManager._get_target_path` (the `os.makedirs` side effect does
not touch files and is dropped from the file-set model). -/
def get_target_path (output_path : String) (book_data : BookData)
    (format_type : String) : String :=
  let clean_title := pythonClean book_data.title
  if pyTruthyStr book_data.series then
    let clean_series := pythonClean (book_data.series.getD "")
    let target_folder := output_path ++ "/" ++ clean_series
    let prefixed_title :=
      if pyTruthyIdx book_data.series_index then
        pyFormat_02_1f (book_data.series_index.getD 0) ++ " - " ++ clean_title
      else clean_title
    target_folder ++ "/" ++ (prefixed_title ++ "." ++ format_type)
  else
    (output_path ++ "/" ++ "No Series") ++ "/" ++
      (pythonClean book_data.title ++ "." ++ format_type)

/-- The source path built in `sync_tag`:
`os.path.join(library_path, book_data['path'], f"{name}.{format_type}")`. -/
def source_file (library_path : String) (book_data : BookData)
    (format_data : FormatEntry) (format_type : String) : String :=
  library_path ++ "/" ++ book_data.path ++ "/" ++
    (format_data.name ++ "." ++ format_type)

/-- The `needs_update` flag computed in `sync_tag` for one (book, format)
pair, given whether the target file exists. -/
def needs_update (cached_metadata : List (String × BookData)) (book_id : Nat)
    (book_data : BookData) (format_type : String) (format_data : FormatEntry)
    (target_exists : Bool) : Bool :=
  match lookup? (toString book_id) cached_metadata with
  | none => true
  | some cached_book =>
    match lookup? format_type cached_book.formats with
    | none => true
    | some cached_format =>
      !(decide (cached_format.last_modified = format_data.last_modified)
        && decide (cached_book.metadata = book_data.metadata)
        && target_exists)

/-- The `to_process` list built in `sync_tag`: tuples
`(source_file, target_file, book_id, book_data, format_type)` for every
(book, format) pair whose `needs_update` flag is true. -/
def to_process (cfg : Config) (current_metadata : List (Nat × BookData))
    (cached_metadata : List (String × BookData)) (fs : List String) :
    List (String × String × Nat × BookData × String) :=
  current_metadata.flatMap fun be =>
    be.2.formats.filterMap fun fe =>
      let src := source_file cfg.library_path be.2 fe.2 fe.1
      let target_file := get_target_path cfg.output_path be.2 fe.1
      if needs_update cached_metadata be.1 be.2 fe.1 fe.2
          (osPathExists fs target_file)
      then some (src, target_file, be.1, be.2, fe.1) else none

/-- The `current_files` set of `sync_tag`: every target path derivable from
the current catalog. -/
def current_files (cfg : Config) (current_metadata : List (Nat × BookData)) :
    List String :=
  current_metadata.flatMap fun be =>
    be.2.formats.map fun fe => get_target_path cfg.output_path be.2 fe.1

/-- `file.lower().endswith(e)` for a four-character extension `e`: the last
four characters of the lower-cased path equal `e`. -/
def endswith4 (e : String) (p : String) : Bool :=
  decide ((p.data.map Char.toLower).drop ((p.data.map Char.toLower).length - 4)
    = e.data)

/-- The extension filter of the removal scan in `sync_tag`:
`file.lower().endswith(('.cbr', '.cbz', '.pdf', '.zip'))`. -/
def recognizedExt (p : String) : Bool :=
  endswith4 ".cbr" p || endswith4 ".cbz" p || endswith4 ".pdf" p ||
    endswith4 ".zip" p

/-- Whether a path lies under a root directory (the `os.walk(output_path)`
scan yields exactly the files under the output root). -/
def underRoot (root p : String) : Bool := (root ++ "/").data.isPrefixOf p.data

/-- The `existing_files` set of `sync_tag`: files under the output root with
a recognised media extension. -/
def existing_files (cfg : Config) (fs : List String) : List String :=
  fs.filter fun p => underRoot cfg.output_path p && recognizedExt p

/-- `to_remove = existing_files - current_files`. -/
def to_remove (cfg : Config) (current_metadata : List (Nat × BookData))
    (fs : List String) : List String :=
  (existing_files cfg fs).filter fun p =>
    !(decide (p ∈ current_files cfg current_metadata))

/-- Failure oracle for the filesystem primitives: `removeFails p` means
`os.remove(p)` raises, `createFails p` means the `os.symlink`/`shutil.copy`
that would create `p` raises. -/
structure Oracle where
  removeFails : String → Bool
  createFails : String → Bool

/-- The oracle under which every filesystem operation succeeds. -/
def noFailures : Oracle := ⟨fun _ => false, fun _ => false⟩

/-- The `LIBRARY_METHOD` dispatch inside `_process_file`'s `try` block:
create the target by symlink or copy, or log an error on an invalid method
(no exception in that case). Returns the file set and the raised error. -/
def create_step (o : Oracle) (method : String) (target_file : String)
    (fs : List String) : List String × Option String :=
  if method = "link" then
    if o.createFails target_file then (fs, some "symlink raised")
    else (target_file :: fs, none)
  else if method = "copy" then
    if o.createFails target_file then (fs, some "copy raised")
    else (target_file :: fs, none)
  else (fs, none)

/-- The body of `_process_file`'s `try` block: remove a pre-existing target,
then create the target according to `LIBRARY_METHOD`.  The returned error is
the exception escaping the block, next to the file set as already mutated. -/
def process_file_try (o : Oracle) (method : String)
    (target_file : String) (fs : List String) : List String × Option String :=
  if osPathExists fs target_file then
    if o.removeFails target_file then (fs, some "os.remove raised")
    else create_step o method target_file
      (fs.filter fun q => !(q = target_file))
  else create_step o method target_file fs

/-- `ComicSyncManager._process_file`: the whole worker, whose `except
Exception` clause logs the error and returns normally.  The `Except` result
is what `future.result()` re-raises in the coordinator. -/
def process_file (o : Oracle) (method : String)
    (source_path target_file : String) (book_id : Nat) (book_data : BookData)
    (format_type : String) (fs : List String) : Except String (List String) :=
  match process_file_try o method target_file fs with
  | (fs1, none) => Except.ok fs1
  | (fs1, some _) => Except.ok fs1

/-- The materialisation phase of `sync_tag`: submit `_process_file` for every
`to_process` tuple and collect each `future.result()`, which re-raises any
exception a worker propagated. -/
def run_materialize (o : Oracle) (method : String)
    (items : List (String × String × Nat × BookData × String))
    (fs : List String) : Except String (List String) :=
  match items with
  | [] => Except.ok fs
  | it :: rest =>
    match process_file o method it.1 it.2.1 it.2.2.1 it.2.2.2.1 it.2.2.2.2 fs with
    | Except.error e => Except.error e
    | Except.ok fs1 => run_materialize o method rest fs1

/-- The effect of the removal phase on the file set: every submitted
`os.remove` runs (the pool drains even when the coordinator later re-raises),
and a failing one leaves its file in place. -/
def apply_removals (o : Oracle) (paths : List String) (fs : List String) :
    List String :=
  match paths with
  | [] => fs
  | p :: rest =>
    apply_removals o rest
      (if o.removeFails p then fs else fs.filter fun q => !(q = p))

/-- `os.path.join(output_path, '.metadata_cache.json')`. -/
def metadata_cache_file (cfg : Config) : String :=
  cfg.output_path ++ "/" ++ ".metadata_cache.json"

/-- The default `os.path.join(output_path, 'sync_log.txt')` log path. -/
def sync_log_file (cfg : Config) : String :=
  cfg.output_path ++ "/" ++ "sync_log.txt"

/-- The state of the persisted cache file: absent, present but failing
`json.load` with a `JSONDecodeError`, or present and parsing to a cache
mapping. -/
inductive CacheFileState
  | missing
  | malformed
  | parsed (cache : List (String × BookData))

/-- `ComicSyncManager._load_metadata_cache`, paired with whether the
"Corrupted metadata cache file" warning was logged. -/
def load_metadata_cache : CacheFileState → List (String × BookData) × Bool
  | CacheFileState.missing => ([], false)
  | CacheFileState.malformed => ([], true)
  | CacheFileState.parsed c => (c, false)

/-- Observable outcome of one `sync_tag` call: the resulting file set, the
cache content written by `_save_metadata_cache` (`none` when the save was
never reached), and whether an exception propagated out of `sync_tag`. -/
structure PassOutcome where
  fs : List String
  savedCache : Option (List (String × BookData))
  errored : Bool
deriving DecidableEq, Repr

/-- `ComicSyncManager.sync_tag`: reconcile, run the two executor phases,
save the cache and sweep empty directories.  A worker exception re-raised by
`future.result()` aborts the pass (all already-submitted operations still
run); the sweep deletes no files and so is identity on the modelled state. -/
def sync_tag (cfg : Config) (o : Oracle)
    (current_metadata : List (Nat × BookData)) (cacheFile : CacheFileState)
    (fs0 : List String) : PassOutcome :=
  let cached_metadata := (load_metadata_cache cacheFile).1
  let tp := to_process cfg current_metadata cached_metadata fs0
  let tr := to_remove cfg current_metadata fs0
  match run_materialize o cfg.library_method tp fs0 with
  | Except.error _ => { fs := fs0, savedCache := none, errored := true }
  | Except.ok fs1 =>
    let fs2 := apply_removals o tr fs1
    if tr.any o.removeFails then { fs := fs2, savedCache := none, errored := true }
    else
      let snap := current_metadata.map fun e => (toString e.1, e.2)
      let fs3 := if osPathExists fs2 (metadata_cache_file cfg) then fs2
                 else metadata_cache_file cfg :: fs2
      { fs := fs3, savedCache := some snap, errored := false }

/-! ### Concrete fixtures used by witnesses and counterexamples -/

/-- The format row of the Batman scenario item. -/
def batmanFmt : FormatEntry :=
  { name := "Batman - file", last_modified := "2024-01-01T00:00:00", size := 5 }

/-- The catalog item of the spec scenario
`{id=1, title="Batman", series="Detective Comics", series_index=3.0, cbz}`. -/
def batmanBook : BookData :=
  { title := "Batman", path := "dc/batman (1)", series := some "Detective Comics",
    series_index := some 3, formats := [("cbz", batmanFmt)],
    metadata := { author_sort := "Kane", timestamp := "t1", pubdate := "p1" } }

/-- The format row of the Annual scenario item. -/
def annualFmt : FormatEntry :=
  { name := "Annual - file", last_modified := "2024-02-02T00:00:00", size := 6 }

/-- The catalog item of the spec scenario
`{id=2, title="Annual", series=None, cbr}`. -/
def annualBook : BookData :=
  { title := "Annual", path := "misc/annual (2)", series := none,
    series_index := none, formats := [("cbr", annualFmt)],
    metadata := { author_sort := "Anon", timestamp := "t2", pubdate := "p2" } }

/-- A small concrete configuration (`copy` materialisation). -/
def cfg0 : Config :=
  { library_path := "lib", output_path := "out", library_method := "copy" }

/-- An oracle under which removing `out/a.cbz` raises and everything else
succeeds. -/
def failRemoveOracle : Oracle :=
  ⟨fun p => decide (p = "out/a.cbz"), fun _ => false⟩

/-- An oracle under which every `os.symlink`/`shutil.copy` raises. -/
def failCreateOracle : Oracle :=
  ⟨fun _ => false, fun _ => true⟩

/-! ### Helper lemmas -/

theorem lookup?_eq_some_of_mem {α : Type} {l : List (String × α)} {k : String}
    {v : α} (hnd : (l.map Prod.fst).Nodup) (hm : (k, v) ∈ l) :
    lookup? k l = some v := by
  induction l with
  | nil => cases hm
  | cons e rest ih =>
    rcases List.mem_cons.mp hm with h | h
    · cases h
      simp [lookup?]
    · have hk : e.1 ≠ k := by
        rintro rfl
        exact (List.nodup_cons.mp hnd).1 (List.mem_map.mpr ⟨(e.1, v), h, rfl⟩)
      simp only [lookup?, if_neg hk]
      exact ih (List.nodup_cons.mp hnd).2 h

theorem mem_value_unique {α : Type} {l : List (String × α)} {k : String}
    {a b : α} (hnd : (l.map Prod.fst).Nodup) (ha : (k, a) ∈ l)
    (hb : (k, b) ∈ l) : a = b := by
  have h1 := lookup?_eq_some_of_mem hnd ha
  have h2 := lookup?_eq_some_of_mem hnd hb
  rw [h1] at h2
  exact Option.some_injective _ h2

theorem mem_to_process_iff {cfg : Config} {cm : List (Nat × BookData)}
    {cache : List (String × BookData)} {fs : List String}
    {x : String × String × Nat × BookData × String} :
    x ∈ to_process cfg cm cache fs ↔
      ∃ be ∈ cm, ∃ fe ∈ be.2.formats,
        needs_update cache be.1 be.2 fe.1 fe.2
          (osPathExists fs (get_target_path cfg.output_path be.2 fe.1)) = true ∧
        x = (source_file cfg.library_path be.2 fe.2 fe.1,
             get_target_path cfg.output_path be.2 fe.1, be.1, be.2, fe.1) := by
  simp only [to_process, List.mem_flatMap, List.mem_filterMap]
  constructor
  · rintro ⟨be, hbe, fe, hfe, hx⟩
    by_cases hc : needs_update cache be.1 be.2 fe.1 fe.2
        (osPathExists fs (get_target_path cfg.output_path be.2 fe.1)) = true
    · rw [if_pos hc] at hx
      exact ⟨be, hbe, fe, hfe, hc, (Option.some_injective _ hx).symm⟩
    · rw [if_neg hc] at hx
      cases hx
  · rintro ⟨be, hbe, fe, hfe, hc, rfl⟩
    exact ⟨be, hbe, fe, hfe, by rw [if_pos hc]⟩

theorem mem_current_files_iff {cfg : Config} {cm : List (Nat × BookData)}
    {p : String} :
    p ∈ current_files cfg cm ↔
      ∃ be ∈ cm, ∃ fe ∈ be.2.formats,
        p = get_target_path cfg.output_path be.2 fe.1 := by
  simp only [current_files, List.mem_flatMap, List.mem_map]
  constructor
  · rintro ⟨be, hbe, fe, hfe, rfl⟩
    exact ⟨be, hbe, fe, hfe, rfl⟩
  · rintro ⟨be, hbe, fe, hfe, rfl⟩
    exact ⟨be, hbe, fe, hfe, rfl⟩

theorem mem_to_remove_iff {cfg : Config} {cm : List (Nat × BookData)}
    {fs : List String} {p : String} :
    p ∈ to_remove cfg cm fs ↔
      p ∈ fs ∧ underRoot cfg.output_path p = true ∧ recognizedExt p = true ∧
        p ∉ current_files cfg cm := by
  simp only [to_remove, existing_files, List.mem_filter, Bool.and_eq_true,
    Bool.not_eq_true', decide_eq_false_iff_not]
  tauto

theorem needs_update_eq_true_iff {cache : List (String × BookData)}
    {book_id : Nat} {bd : BookData} {ft : String} {fd : FormatEntry}
    {te : Bool} :
    needs_update cache book_id bd ft fd te = true ↔
      (lookup? (toString book_id) cache = none ∨
       ∃ cb, lookup? (toString book_id) cache = some cb ∧
         (lookup? ft cb.formats = none ∨
          ∃ cfd, lookup? ft cb.formats = some cfd ∧
            (cfd.last_modified ≠ fd.last_modified ∨
             cb.metadata ≠ bd.metadata ∨ te = false))) := by
  unfold needs_update
  rcases h1 : lookup? (toString book_id) cache with _ | cb
  · simp [h1]
  · rcases h2 : lookup? ft cb.formats with _ | cfd
    · simp [h1, h2]
    · cases te <;> simp [h1, h2] <;> tauto

theorem process_file_eq (o : Oracle) (m s t : String) (book_id : Nat)
    (bd : BookData) (ft : String) (fs : List String) :
    process_file o m s t book_id bd ft fs =
      Except.ok (process_file_try o m t fs).1 := by
  unfold process_file
  rcases h : process_file_try o m t fs with ⟨fs1, e⟩
  cases e <;> simp

theorem process_file_try_mem_le {o : Oracle} {m t : String} {fs : List String}
    {p : String} (h : p ∈ (process_file_try o m t fs).1) : p = t ∨ p ∈ fs := by
  unfold process_file_try create_step at h
  split_ifs at h <;> simp_all [List.mem_filter] <;> tauto

theorem process_file_try_keeps {o : Oracle} {m t : String} {fs : List String}
    {p : String} (hp : p ∈ fs) (hne : p ≠ t) :
    p ∈ (process_file_try o m t fs).1 := by
  unfold process_file_try create_step
  split_ifs <;> simp_all [List.mem_filter]

theorem process_file_try_noFail_mem {m t : String} {fs : List String}
    {p : String} (hm : m = "link" ∨ m = "copy") :
    p ∈ (process_file_try noFailures m t fs).1 ↔ p = t ∨ p ∈ fs := by
  rcases hm with rfl | rfl <;>
    unfold process_file_try create_step <;>
    split_ifs <;>
    simp_all [noFailures, List.mem_filter] <;>
    tauto

theorem run_materialize_isOk (o : Oracle) (m : String)
    (items : List (String × String × Nat × BookData × String))
    (fs : List String) :
    ∃ fs', run_materialize o m items fs = Except.ok fs' := by
  induction items generalizing fs with
  | nil => exact ⟨fs, rfl⟩
  | cons it rest ih =>
    rcases ih (process_file_try o m it.2.1 fs).1 with ⟨fs', h⟩
    refine ⟨fs', ?_⟩
    rw [run_materialize, process_file_eq]
    exact h

theorem run_materialize_mem_le {o : Oracle} {m : String}
    {items : List (String × String × Nat × BookData × String)}
    {fs fs' : List String} {p : String}
    (h : run_materialize o m items fs = Except.ok fs') (hp : p ∈ fs') :
    (∃ it ∈ items, p = it.2.1) ∨ p ∈ fs := by
  induction items generalizing fs with
  | nil =>
    cases h
    exact Or.inr hp
  | cons it rest ih =>
    rw [run_materialize, process_file_eq] at h
    rcases ih h with ⟨it', hit', rfl⟩ | hmem
    · exact Or.inl ⟨it', List.mem_cons_of_mem _ hit', rfl⟩
    · rcases process_file_try_mem_le hmem with rfl | hfs
      · exact Or.inl ⟨it, List.mem_cons_self it rest, rfl⟩
      · exact Or.inr hfs

theorem run_materialize_keeps {o : Oracle} {m : String}
    {items : List (String × String × Nat × BookData × String)}
    {fs fs' : List String} {p : String}
    (h : run_materialize o m items fs = Except.ok fs') (hp : p ∈ fs)
    (hne : ∀ it ∈ items, p ≠ it.2.1) : p ∈ fs' := by
  induction items generalizing fs with
  | nil =>
    cases h
    exact hp
  | cons it rest ih =>
    rw [run_materialize, process_file_eq] at h
    exact ih h
      (process_file_try_keeps hp (hne it (List.mem_cons_self it rest)))
      (fun it' hit' => hne it' (List.mem_cons_of_mem _ hit'))

theorem run_materialize_noFail_mem {m : String}
    {items : List (String × String × Nat × BookData × String)}
    {fs fs' : List String} {p : String} (hm : m = "link" ∨ m = "copy")
    (h : run_materialize noFailures m items fs = Except.ok fs') :
    p ∈ fs' ↔ (∃ it ∈ items, p = it.2.1) ∨ p ∈ fs := by
  induction items generalizing fs with
  | nil =>
    cases h
    simp
  | cons it rest ih =>
    rw [run_materialize, process_file_eq] at h
    rw [ih h]
    simp only [process_file_try_noFail_mem hm, List.mem_cons]
    constructor
    · rintro (⟨it', hit', rfl⟩ | rfl | hfs)
      · exact Or.inl ⟨it', Or.inr hit', rfl⟩
      · exact Or.inl ⟨it, Or.inl rfl, rfl⟩
      · exact Or.inr hfs
    · rintro (⟨it', rfl | hit', rfl⟩ | hfs)
      · exact Or.inr (Or.inl rfl)
      · exact Or.inl ⟨it', hit', rfl⟩
      · exact Or.inr (Or.inr hfs)

theorem mem_apply_removals {o : Oracle} {paths fs : List String} {p : String} :
    p ∈ apply_removals o paths fs ↔
      p ∈ fs ∧ (p ∈ paths → o.removeFails p = true) := by
  induction paths generalizing fs with
  | nil => simp [apply_removals]
  | cons q rest ih =>
    rw [apply_removals, ih]
    by_cases hq : o.removeFails q = true
    · rw [if_pos hq]
      by_cases hpq : p = q
      · subst hpq
        simp [hq]
      · simp [hpq]
    · rw [if_neg hq]
      by_cases hpq : p = q
      · subst hpq
        simp only [List.mem_filter]
        simp [hq]
      · simp [List.mem_filter, hpq]

theorem drop_append_len (a b : List Char) (k : Nat) :
    (a ++ b).drop (a.length + k) = b.drop k := by
  simp [List.drop_append]

theorem endswith4_tail (e p : String) (a t : List Char)
    (hp : p.data.map Char.toLower = a ++ t) (ht : 4 ≤ t.length) :
    endswith4 e p = decide (t.drop (t.length - 4) = e.data) := by
  unfold endswith4
  rw [hp]
  have h1 : (a ++ t).length - 4 = a.length + (t.length - 4) := by
    simp only [List.length_append]
    omega
  rw [h1, drop_append_len]

theorem recognizedExt_of_tail (p : String) (a t : List Char)
    (hp : p.data.map Char.toLower = a ++ t) (ht : 4 ≤ t.length) :
    recognizedExt p =
      (decide (t.drop (t.length - 4) = ".cbr".data) ||
       decide (t.drop (t.length - 4) = ".cbz".data) ||
       decide (t.drop (t.length - 4) = ".pdf".data) ||
       decide (t.drop (t.length - 4) = ".zip".data)) := by
  unfold recognizedExt
  rw [endswith4_tail ".cbr" p a t hp ht, endswith4_tail ".cbz" p a t hp ht,
    endswith4_tail ".pdf" p a t hp ht, endswith4_tail ".zip" p a t hp ht]

theorem recognizedExt_metadata_cache_file (cfg : Config) :
    recognizedExt (metadata_cache_file cfg) = false := by
  have hp : (metadata_cache_file cfg).data.map Char.toLower
      = cfg.output_path.data.map Char.toLower
        ++ ('/' :: ".metadata_cache.json".data) := by
    have h2 : List.map Char.toLower ('/' :: ".metadata_cache.json".data)
        = '/' :: ".metadata_cache.json".data := by decide
    simp only [metadata_cache_file, String.data_append, List.map_append,
      List.append_assoc]
    rw [← h2]
    simp
  rw [recognizedExt_of_tail (metadata_cache_file cfg) _ _ hp (by decide)]
  decide

theorem recognizedExt_sync_log_file (cfg : Config) :
    recognizedExt (sync_log_file cfg) = false := by
  have hp : (sync_log_file cfg).data.map Char.toLower
      = cfg.output_path.data.map Char.toLower ++ ('/' :: "sync_log.txt".data) := by
    have h2 : List.map Char.toLower ('/' :: "sync_log.txt".data)
        = '/' :: "sync_log.txt".data := by decide
    simp only [sync_log_file, String.data_append, List.map_append,
      List.append_assoc]
    rw [← h2]
    simp
  rw [recognizedExt_of_tail (sync_log_file cfg) _ _ hp (by decide)]
  decide

theorem recognizedExt_dot_format (folder pt ft : String)
    (hft : ft = "cbr" ∨ ft = "cbz") :
    recognizedExt (folder ++ "/" ++ (pt ++ "." ++ ft)) = true := by
  rcases hft with rfl | rfl
  · have hp : (folder ++ "/" ++ (pt ++ "." ++ "cbr")).data.map Char.toLower
        = (folder.data.map Char.toLower ++ '/' :: pt.data.map Char.toLower)
          ++ ['.', 'c', 'b', 'r'] := by
      have h2 : List.map Char.toLower ['.', 'c', 'b', 'r'] = ['.', 'c', 'b', 'r'] := by
        decide
      have h3 : Char.toLower '/' = '/' := by decide
      simp [String.data_append, List.map_append, h3, h2]
    rw [recognizedExt_of_tail _ _ _ hp (by decide)]
    decide
  · have hp : (folder ++ "/" ++ (pt ++ "." ++ "cbz")).data.map Char.toLower
        = (folder.data.map Char.toLower ++ '/' :: pt.data.map Char.toLower)
          ++ ['.', 'c', 'b', 'z'] := by
      have h2 : List.map Char.toLower ['.', 'c', 'b', 'z'] = ['.', 'c', 'b', 'z'] := by
        decide
      have h3 : Char.toLower '/' = '/' := by decide
      simp [String.data_append, List.map_append, h3, h2]
    rw [recognizedExt_of_tail _ _ _ hp (by decide)]
    decide

theorem get_target_path_shape (out : String) (bd : BookData) (ft : String) :
    ∃ folder pt, get_target_path out bd ft = folder ++ "/" ++ (pt ++ "." ++ ft) := by
  unfold get_target_path
  by_cases hs : pyTruthyStr bd.series = true
  · rw [if_pos hs]
    exact ⟨_, _, rfl⟩
  · rw [if_neg hs]
    exact ⟨_, _, rfl⟩

theorem recognizedExt_target {out : String} {bd : BookData} {ft : String}
    (hft : ft = "cbr" ∨ ft = "cbz") :
    recognizedExt (get_target_path out bd ft) = true := by
  obtain ⟨folder, pt, h⟩ := get_target_path_shape out bd ft
  rw [h]
  exact recognizedExt_dot_format folder pt ft hft

theorem mem_ensure_cache_file {c : String} {fs : List String} {p : String} :
    p ∈ (if osPathExists fs c = true then fs else c :: fs) ↔ p = c ∨ p ∈ fs := by
  unfold osPathExists
  split_ifs with h
  · simp only [decide_eq_true_eq] at h
    constructor
    · exact fun hp => Or.inr hp
    · rintro (rfl | hp)
      · exact h
      · exact hp
  · simp [List.mem_cons]

theorem sync_tag_spec (cfg : Config) (o : Oracle)
    (cm : List (Nat × BookData)) (cf : CacheFileState) (fs0 : List String) :
    ∃ fs1,
      run_materialize o cfg.library_method
        (to_process cfg cm (load_metadata_cache cf).1 fs0) fs0 = Except.ok fs1 ∧
      ((to_remove cfg cm fs0).any o.removeFails = true →
        (sync_tag cfg o cm cf fs0).fs
          = apply_removals o (to_remove cfg cm fs0) fs1 ∧
        (sync_tag cfg o cm cf fs0).savedCache = none ∧
        (sync_tag cfg o cm cf fs0).errored = true) ∧
      ((to_remove cfg cm fs0).any o.removeFails = false →
        (sync_tag cfg o cm cf fs0).errored = false ∧
        (sync_tag cfg o cm cf fs0).savedCache
          = some (cm.map fun e => (toString e.1, e.2)) ∧
        ∀ p, p ∈ (sync_tag cfg o cm cf fs0).fs ↔
          p = metadata_cache_file cfg ∨
            p ∈ apply_removals o (to_remove cfg cm fs0) fs1) := by
  obtain ⟨fs1, h1⟩ := run_materialize_isOk o cfg.library_method
    (to_process cfg cm (load_metadata_cache cf).1 fs0) fs0
  refine ⟨fs1, h1, ?_, ?_⟩ <;> intro hrem
  · simp only [sync_tag]
    rw [h1]
    simp [hrem]
  · simp only [sync_tag]
    rw [h1]
    simp only [hrem, Bool.false_eq_true, if_false]
    refine ⟨trivial, trivial, fun p => ?_⟩
    exact mem_ensure_cache_file

theorem needs_update_exists_iff {cache : List (String × BookData)}
    {book_id : Nat} {bd : BookData} {ft : String} {fd : FormatEntry}
    {fs : List String} {tgt : String} :
    needs_update cache book_id bd ft fd (osPathExists fs tgt) = true ↔
      (lookup? (toString book_id) cache = none ∨
       ∃ cb, lookup? (toString book_id) cache = some cb ∧
         (lookup? ft cb.formats = none ∨
          ∃ cfd, lookup? ft cb.formats = some cfd ∧
            (cfd.last_modified ≠ fd.last_modified ∨
             cb.metadata ≠ bd.metadata ∨ tgt ∉ fs))) := by
  rw [needs_update_eq_true_iff]
  simp [osPathExists]

theorem needs_update_eq_false_exists {cache : List (String × BookData)}
    {book_id : Nat} {bd : BookData} {ft : String} {fd : FormatEntry}
    {te : Bool} (h : needs_update cache book_id bd ft fd te = false) :
    te = true := by
  unfold needs_update at h
  split at h
  · cases h
  · split at h
    · cases h
    · cases te
      · simp at h
      · rfl

/-! ### The claims -/

/-- C9: `_process_file` is total with respect to exceptions — for every input
tuple, file state and failure behaviour of the pre-existing-target removal and
of the symlink/copy step, the worker catches the exception internally and
returns normally, so a materialisation worker never propagates an exception to
the coordinator. -/
theorem C9_process_file_never_raises (o : Oracle) (method source_path
    target_file : String) (book_id : Nat) (book_data : BookData)
    (format_type : String) (fs : List String) :
    ∃ fs', process_file o method source_path target_file book_id book_data
      format_type fs = Except.ok fs' :=
  ⟨(process_file_try o method target_file fs).1,
    process_file_eq o method source_path target_file book_id book_data
      format_type fs⟩

/-- C2 counterexample: the claim expects the Batman scenario to derive
`<output>/Detective Comics/03.0 - Batman.cbz`, but `f"{3.0:02.1f}"` pads to a
minimum total width of 2 (not 2 integer digits), so the code derives
`.../3.0 - Batman.cbz`, not `.../03.0 - Batman.cbz`. -/
theorem C2_counterexample_format_width :
    get_target_path "<output>" batmanBook "cbz"
      = "<output>/Detective Comics/3.0 - Batman.cbz" ∧
    get_target_path "<output>" batmanBook "cbz"
      ≠ "<output>/Detective Comics/03.0 - Batman.cbz" := by
  constructor
  · decide
  · decide

/-- C2 (amended): for an item with a non-empty series and a non-zero series
index the derived path is
`output_root/sanitized_series/{index:02.1f} - {sanitized title}.{format}`,
where `{:02.1f}` rounds to one decimal digit with a minimum total width of 2
(so `3.0` renders as `3.0`, not `03.0`); for an item without a series it is
`output_root/No Series/{sanitized title}.{format}`; the Batman scenario
derives `<output>/Detective Comics/3.0 - Batman.cbz` and the Annual scenario
derives `<output>/No Series/Annual.cbr`. -/
theorem C2_target_path_derivation (out ft : String) (bd : BookData) :
    (∀ s q, bd.series = some s → s ≠ "" → bd.series_index = some q → q ≠ 0 →
      get_target_path out bd ft
        = out ++ "/" ++ pythonClean s ++ "/"
          ++ (pyFormat_02_1f q ++ " - " ++ pythonClean bd.title ++ "." ++ ft))
    ∧ (bd.series = none →
      get_target_path out bd ft
        = out ++ "/" ++ "No Series" ++ "/" ++ (pythonClean bd.title ++ "." ++ ft))
    ∧ get_target_path "<output>" batmanBook "cbz"
        = "<output>/Detective Comics/3.0 - Batman.cbz"
    ∧ get_target_path "<output>" annualBook "cbr"
        = "<output>/No Series/Annual.cbr" := by
  refine ⟨?_, ?_, by decide, by decide⟩
  · rintro s q hs hs' hq hq'
    simp [get_target_path, hs, hq, pyTruthyStr, pyTruthyIdx, hs', hq']
  · intro hs
    simp [get_target_path, hs, pyTruthyStr]

/-- C2 witness: the amended derivation rule evaluated on the Batman item. -/
theorem C2_target_path_witness :
    get_target_path "<output>" batmanBook "cbz"
      = "<output>" ++ "/" ++ pythonClean "Detective Comics" ++ "/"
        ++ (pyFormat_02_1f 3 ++ " - " ++ pythonClean batmanBook.title ++ "." ++ "cbz") :=
  (C2_target_path_derivation "<output>" "cbz" batmanBook).1 "Detective Comics" 3
    (by decide) (by decide) (by decide) (by decide)

/-- C8: a series item whose series index is exactly `0` gets no index prefix
(the Python truthiness test treats `0` as absent): the derived path equals the
one derived with no index at all, namely
`output_root/sanitized_series/{sanitized title}.{format}`. -/
theorem C8_zero_series_index (out ft title pa s : String)
    (fmts : List (String × FormatEntry)) (md : BookMetadata) (hs : s ≠ "") :
    get_target_path out ⟨title, pa, some s, some 0, fmts, md⟩ ft
      = get_target_path out ⟨title, pa, some s, none, fmts, md⟩ ft
    ∧ get_target_path out ⟨title, pa, some s, some 0, fmts, md⟩ ft
      = out ++ "/" ++ pythonClean s ++ "/" ++ (pythonClean title ++ "." ++ ft) := by
  have h0 : pyTruthyIdx (some (0 : ℚ)) = false := by decide
  constructor <;> simp [get_target_path, pyTruthyStr, pyTruthyIdx, hs, h0]

/-- C8 witness: the zero-index rule evaluated on a concrete item. -/
theorem C8_zero_series_index_witness :
    get_target_path "out" ⟨"Batman", "pb", some "Detective Comics", some 0, [],
        { author_sort := "Kane", timestamp := "t1", pubdate := "p1" }⟩ "cbz"
      = get_target_path "out" ⟨"Batman", "pb", some "Detective Comics", none, [],
        { author_sort := "Kane", timestamp := "t1", pubdate := "p1" }⟩ "cbz"
    ∧ get_target_path "out" ⟨"Batman", "pb", some "Detective Comics", some 0, [],
        { author_sort := "Kane", timestamp := "t1", pubdate := "p1" }⟩ "cbz"
      = "out" ++ "/" ++ pythonClean "Detective Comics" ++ "/"
        ++ (pythonClean "Batman" ++ "." ++ "cbz") :=
  C8_zero_series_index "out" "cbz" "Batman" "pb" "Detective Comics" []
    { author_sort := "Kane", timestamp := "t1", pubdate := "p1" } (by decide)

/-- C7: loading the cache returns the empty mapping both when the cache file
is missing and when its content fails to parse (warning logged only in the
corrupt case); a corrupt cache behaves exactly like an absent one for the
whole pass, and with an empty cache every (item, format) pair of the catalog
is placed in `to_process`, i.e. re-materialised. -/
theorem C7_cache_load_resilience :
    load_metadata_cache CacheFileState.missing = ([], false)
    ∧ load_metadata_cache CacheFileState.malformed = ([], true)
    ∧ (∀ cfg o cm fs0, sync_tag cfg o cm CacheFileState.malformed fs0
        = sync_tag cfg o cm CacheFileState.missing fs0)
    ∧ (∀ (cfg : Config) (cm : List (Nat × BookData)) (fs0 : List String)
        (book_id : Nat) (bd : BookData) (ft : String) (fd : FormatEntry),
        (book_id, bd) ∈ cm → (ft, fd) ∈ bd.formats →
        (source_file cfg.library_path bd fd ft,
         get_target_path cfg.output_path bd ft, book_id, bd, ft)
          ∈ to_process cfg cm [] fs0) := by
  refine ⟨rfl, rfl, fun cfg o cm fs0 => rfl, ?_⟩
  rintro cfg cm fs0 book_id bd ft fd hm hf
  exact mem_to_process_iff.mpr ⟨(book_id, bd), hm, (ft, fd), hf, rfl, rfl⟩

/-- C7 witness: with an empty cache the Annual item is re-materialised. -/
theorem C7_cache_load_witness :
    (source_file cfg0.library_path annualBook annualFmt "cbr",
     get_target_path cfg0.output_path annualBook "cbr", 2, annualBook, "cbr")
      ∈ to_process cfg0 [(2, annualBook)] [] [] :=
  C7_cache_load_resilience.2.2.2 cfg0 [(2, annualBook)] [] 2 annualBook "cbr"
    annualFmt (by decide) (by decide)

/-- C6: any pass that reaches the cache-save step (i.e. does not error out)
persists exactly the full current catalog snapshot with stringified item ids
as keys — a wholesale replacement independent of the prior cache content and
of how many individual materialisations failed. -/
theorem C6_whole_snapshot_cache_save (cfg : Config) (o : Oracle)
    (cm : List (Nat × BookData)) (cf : CacheFileState) (fs0 : List String)
    (h : (sync_tag cfg o cm cf fs0).errored = false) :
    (sync_tag cfg o cm cf fs0).savedCache
      = some (cm.map fun e => (toString e.1, e.2)) := by
  obtain ⟨fs1, h1, hbad, hok⟩ := sync_tag_spec cfg o cm cf fs0
  by_cases hrem : (to_remove cfg cm fs0).any o.removeFails = true
  · rw [(hbad hrem).2.2] at h
    cases h
  · exact (hok (by simpa using hrem)).2.1

/-- C6 witness: a pass in which the only materialisation fails still saves
the full snapshot with the stringified key. -/
theorem C6_whole_snapshot_witness :
    (sync_tag cfg0 failCreateOracle [(1, annualBook)] CacheFileState.missing
      []).savedCache = some [("1", annualBook)] :=
  C6_whole_snapshot_cache_save cfg0 failCreateOracle [(1, annualBook)]
    CacheFileState.missing [] (by decide)

/-- C5 counterexample: the claim says a failing removal operation is caught
and the pass still saves the cache; in the code `os.remove` is submitted
bare and its exception is re-raised by `future.result()`, so one failing
removal aborts the pass before the cache save. -/
theorem C5_counterexample_removal_aborts :
    (sync_tag cfg0 failRemoveOracle [] CacheFileState.missing
      ["out/a.cbz"]).errored = true
    ∧ (sync_tag cfg0 failRemoveOracle [] CacheFileState.missing
      ["out/a.cbz"]).savedCache = none := by
  constructor
  · decide
  · decide

/-- C5 (amended): materialisation-phase failures are contained per item —
`_process_file` catches every exception, so with any number of failing
copy/symlink operations the pass still completes, saves the cache and runs
the sweep; but a removal-phase failure (an `os.remove` exception) propagates
through `future.result()` and aborts the pass before the cache save (all
already-submitted sibling removals still execute). -/
theorem C5_failure_containment (cfg : Config) (o : Oracle)
    (cm : List (Nat × BookData)) (cf : CacheFileState) (fs0 : List String)
    (hrem : ∀ p ∈ to_remove cfg cm fs0, o.removeFails p = false) :
    (sync_tag cfg o cm cf fs0).errored = false
    ∧ (sync_tag cfg o cm cf fs0).savedCache
      = some (cm.map fun e => (toString e.1, e.2)) := by
  obtain ⟨fs1, h1, hbad, hok⟩ := sync_tag_spec cfg o cm cf fs0
  have hany : (to_remove cfg cm fs0).any o.removeFails = false := by
    rw [List.any_eq_false]
    intro p hp
    simp [hrem p hp]
  obtain ⟨he, hs, _⟩ := hok hany
  exact ⟨he, hs⟩

/-- C5 witness: with every materialisation failing and nothing to remove,
the pass completes and saves the snapshot. -/
theorem C5_failure_containment_witness :
    (sync_tag cfg0 failCreateOracle [(2, annualBook)] CacheFileState.missing
      []).errored = false
    ∧ (sync_tag cfg0 failCreateOracle [(2, annualBook)] CacheFileState.missing
      []).savedCache = some [("2", annualBook)] := by
  have h := C5_failure_containment cfg0 failCreateOracle [(2, annualBook)]
    CacheFileState.missing []
    (by
      intro p hp
      rw [show to_remove cfg0 [(2, annualBook)] [] = [] from by decide] at hp
      exact absurd hp (List.not_mem_nil p))
  exact h

/-- C3: a (item, format) pair of the current catalog is placed in
`to_process` exactly when the item id is absent from the loaded cache, or the
format is absent from the cached entry's formats, or the cached
`last_modified` for that format differs from the current one, or the cached
metadata sub-object differs from the current one, or the derived target file
does not exist on disk; otherwise it is skipped. -/
theorem C3_to_process_membership (cfg : Config) (cm : List (Nat × BookData))
    (cache : List (String × BookData)) (fs : List String) (book_id : Nat)
    (bd : BookData) (ft : String) (fd : FormatEntry)
    (hm : (book_id, bd) ∈ cm) (hf : (ft, fd) ∈ bd.formats)
    (hnd : (bd.formats.map Prod.fst).Nodup) :
    (source_file cfg.library_path bd fd ft,
     get_target_path cfg.output_path bd ft, book_id, bd, ft)
      ∈ to_process cfg cm cache fs ↔
      (lookup? (toString book_id) cache = none ∨
       ∃ cb, lookup? (toString book_id) cache = some cb ∧
         (lookup? ft cb.formats = none ∨
          ∃ cfd, lookup? ft cb.formats = some cfd ∧
            (cfd.last_modified ≠ fd.last_modified ∨
             cb.metadata ≠ bd.metadata ∨
             get_target_path cfg.output_path bd ft ∉ fs))) := by
  constructor
  · intro hmem
    obtain ⟨be, hbe, fe, hfe, hneed, heq⟩ := mem_to_process_iff.mp hmem
    rcases be with ⟨id', bd'⟩
    rcases fe with ⟨ft', fd'⟩
    simp only [Prod.mk.injEq] at heq
    obtain ⟨hsrc, htgt, rfl, rfl, rfl⟩ := heq
    obtain rfl : fd = fd' := mem_value_unique hnd hf hfe
    exact needs_update_exists_iff.mp hneed
  · intro h
    exact mem_to_process_iff.mpr
      ⟨(book_id, bd), hm, (ft, fd), hf, needs_update_exists_iff.mpr h, rfl⟩

/-- C3 witness: with a cache entry identical to the catalog entry and the
target present on disk, the pair is skipped (both sides of the equivalence
false). -/
theorem C3_to_process_membership_witness :
    ((source_file cfg0.library_path annualBook annualFmt "cbr",
      get_target_path cfg0.output_path annualBook "cbr", 2, annualBook, "cbr")
       ∈ to_process cfg0 [(2, annualBook)] [("2", annualBook)]
         [get_target_path cfg0.output_path annualBook "cbr"]) ↔
      (lookup? (toString 2) [("2", annualBook)] = none ∨
       ∃ cb, lookup? (toString 2) [("2", annualBook)] = some cb ∧
         (lookup? "cbr" cb.formats = none ∨
          ∃ cfd, lookup? "cbr" cb.formats = some cfd ∧
            (cfd.last_modified ≠ annualFmt.last_modified ∨
             cb.metadata ≠ annualBook.metadata ∨
             get_target_path cfg0.output_path annualBook "cbr"
               ∉ [get_target_path cfg0.output_path annualBook "cbr"]))) :=
  C3_to_process_membership cfg0 [(2, annualBook)] [("2", annualBook)]
    [get_target_path cfg0.output_path annualBook "cbr"] 2 annualBook "cbr"
    annualFmt (by decide) (by decide) (by decide)

/-- C4: `to_remove` is exactly the set of files under the output root with a
recognised extension (`.cbr`, `.cbz`, `.pdf`, `.zip`, case-insensitively)
that are not derived target paths of the current catalog; consequently after
a pass that completes without error, every recognised-extension file under
the output root is the derived target path of some current (item, format)
pair. -/
theorem C4_to_remove_no_orphans (cfg : Config) (o : Oracle)
    (cm : List (Nat × BookData)) (cf : CacheFileState) (fs0 : List String) :
    (∀ p, p ∈ to_remove cfg cm fs0 ↔
      p ∈ fs0 ∧ underRoot cfg.output_path p = true ∧ recognizedExt p = true ∧
        p ∉ current_files cfg cm)
    ∧ ((sync_tag cfg o cm cf fs0).errored = false →
        ∀ p ∈ (sync_tag cfg o cm cf fs0).fs,
          underRoot cfg.output_path p = true → recognizedExt p = true →
            p ∈ current_files cfg cm) := by
  refine ⟨fun p => mem_to_remove_iff, ?_⟩
  intro herr p hp hu hr
  obtain ⟨fs1, h1, hbad, hok⟩ := sync_tag_spec cfg o cm cf fs0
  by_cases hrem : (to_remove cfg cm fs0).any o.removeFails = true
  · rw [(hbad hrem).2.2] at herr
    cases herr
  · replace hrem : (to_remove cfg cm fs0).any o.removeFails = false := by
      simpa using hrem
    obtain ⟨_, _, hmem⟩ := hok hrem
    rcases (hmem p).mp hp with rfl | hp2
    · rw [recognizedExt_metadata_cache_file] at hr
      cases hr
    · have hp3 := mem_apply_removals.mp hp2
      have hnotr : p ∉ to_remove cfg cm fs0 := by
        intro hin
        rw [List.any_eq_false] at hrem
        exact absurd (hp3.2 hin) (by simp [hrem p hin])
      rcases run_materialize_mem_le h1 hp3.1 with ⟨it, hit, rfl⟩ | hfs0
      · obtain ⟨be, hbe, fe, hfe, _, heq⟩ := mem_to_process_iff.mp hit
        rw [heq]
        exact mem_current_files_iff.mpr ⟨be, hbe, fe, hfe, rfl⟩
      · by_contra hnc
        exact hnotr (mem_to_remove_iff.mpr ⟨hfs0, hu, hr, hnc⟩)

/-- C4 witness: a stale file is in `to_remove` and after the pass the
materialised Annual target is a current derived path. -/
theorem C4_to_remove_no_orphans_witness :
    ("out/old.cbz" ∈ to_remove cfg0 [(2, annualBook)] ["out/old.cbz"] ↔
      "out/old.cbz" ∈ ["out/old.cbz"] ∧
        underRoot cfg0.output_path "out/old.cbz" = true ∧
        recognizedExt "out/old.cbz" = true ∧
        "out/old.cbz" ∉ current_files cfg0 [(2, annualBook)])
    ∧ "out/No Series/Annual.cbr" ∈ current_files cfg0 [(2, annualBook)] := by
  have h := C4_to_remove_no_orphans cfg0 noFailures [(2, annualBook)]
    CacheFileState.missing ["out/old.cbz"]
  exact ⟨h.1 "out/old.cbz",
    h.2 (by decide) "out/No Series/Annual.cbr" (by decide) (by decide) (by decide)⟩

/-- C10: a pass never deletes the cache file or the log file — the removal
phase only deletes files with a recognised media extension (and the
materialisation phase only ever touches derived targets, which carry a
`cbr`/`cbz` extension), and the empty-directory sweep deletes no files — so
every file under the output root without a recognised extension, in
particular `.metadata_cache.json` and `sync_log.txt`, survives every pass. -/
theorem C10_cache_and_log_survive (cfg : Config) (o : Oracle)
    (cm : List (Nat × BookData)) (cf : CacheFileState) (fs0 : List String)
    (hw : ∀ e ∈ cm, ∀ fe ∈ (e.2).formats, fe.1 = "cbr" ∨ fe.1 = "cbz") :
    (∀ p ∈ fs0, recognizedExt p = false → p ∈ (sync_tag cfg o cm cf fs0).fs)
    ∧ (metadata_cache_file cfg ∈ fs0 →
        metadata_cache_file cfg ∈ (sync_tag cfg o cm cf fs0).fs)
    ∧ (sync_log_file cfg ∈ fs0 →
        sync_log_file cfg ∈ (sync_tag cfg o cm cf fs0).fs) := by
  have main : ∀ p ∈ fs0, recognizedExt p = false →
      p ∈ (sync_tag cfg o cm cf fs0).fs := by
    intro p hp hr
    obtain ⟨fs1, h1, hbad, hok⟩ := sync_tag_spec cfg o cm cf fs0
    have hne : ∀ it ∈ to_process cfg cm (load_metadata_cache cf).1 fs0,
        p ≠ it.2.1 := by
      intro it hit heq
      obtain ⟨be, hbe, fe, hfe, _, heq2⟩ := mem_to_process_iff.mp hit
      have htr : recognizedExt it.2.1 = true := by
        rw [heq2]
        exact recognizedExt_target (hw be hbe fe hfe)
      rw [← heq, hr] at htr
      cases htr
    have hfs1 : p ∈ fs1 := run_materialize_keeps h1 hp hne
    have hnr : p ∉ to_remove cfg cm fs0 := by
      intro hin
      have := (mem_to_remove_iff.mp hin).2.2.1
      rw [hr] at this
      cases this
    have hfs2 : p ∈ apply_removals o (to_remove cfg cm fs0) fs1 :=
      mem_apply_removals.mpr ⟨hfs1, fun hin => absurd hin hnr⟩
    by_cases hrem : (to_remove cfg cm fs0).any o.removeFails = true
    · rw [(hbad hrem).1]
      exact hfs2
    · obtain ⟨_, _, hmem⟩ := hok (by simpa using hrem)
      exact (hmem p).mpr (Or.inr hfs2)
  exact ⟨main,
    fun h => main _ h (recognizedExt_metadata_cache_file cfg),
    fun h => main _ h (recognizedExt_sync_log_file cfg)⟩

/-- C10 witness: the cache file and the log file survive a concrete pass that
also materialises an item and removes a stale file. -/
theorem C10_cache_and_log_survive_witness :
    metadata_cache_file cfg0
      ∈ (sync_tag cfg0 noFailures [(2, annualBook)] CacheFileState.missing
          ["out/.metadata_cache.json", "out/sync_log.txt", "out/old.cbz"]).fs
    ∧ sync_log_file cfg0
      ∈ (sync_tag cfg0 noFailures [(2, annualBook)] CacheFileState.missing
          ["out/.metadata_cache.json", "out/sync_log.txt", "out/old.cbz"]).fs := by
  have h := C10_cache_and_log_survive cfg0 noFailures [(2, annualBook)]
    CacheFileState.missing
    ["out/.metadata_cache.json", "out/sync_log.txt", "out/old.cbz"] (by decide)
  exact ⟨h.2.1 (by decide), h.2.2 (by decide)⟩

/-- C1: a sync pass is idempotent — for every catalog and initial state, after
one pass in which every filesystem operation succeeds (with a valid
materialisation method and Python-dict-like key uniqueness), the second pass
over the unchanged catalog and unchanged output tree computes an empty
`to_process` list and an empty `to_remove` set: zero materialisations and
zero removals. -/
theorem C1_second_pass_empty (cfg : Config) (cm : List (Nat × BookData))
    (cf : CacheFileState) (fs0 : List String)
    (hkeys : (cm.map fun e => toString e.1).Nodup)
    (hfmts : ∀ e ∈ cm, ((e.2).formats.map Prod.fst).Nodup)
    (hmethod : cfg.library_method = "link" ∨ cfg.library_method = "copy") :
    (sync_tag cfg noFailures cm cf fs0).errored = false
    ∧ ∀ c1, (sync_tag cfg noFailures cm cf fs0).savedCache = some c1 →
        to_process cfg cm (load_metadata_cache (CacheFileState.parsed c1)).1
          (sync_tag cfg noFailures cm cf fs0).fs = []
        ∧ to_remove cfg cm (sync_tag cfg noFailures cm cf fs0).fs = [] := by
  obtain ⟨fs1, h1, _, hok⟩ := sync_tag_spec cfg noFailures cm cf fs0
  have hrem0 : (to_remove cfg cm fs0).any noFailures.removeFails = false := by
    simp [noFailures]
  obtain ⟨herr, hsaved, hmem⟩ := hok hrem0
  refine ⟨herr, fun c1 hc1 => ?_⟩
  rw [hsaved] at hc1
  obtain rfl : (cm.map fun e => (toString e.1, e.2)) = c1 :=
    Option.some_injective _ hc1
  -- every current target file is present after the first pass
  have htgt : ∀ be ∈ cm, ∀ fe ∈ (be.2).formats,
      get_target_path cfg.output_path be.2 fe.1
        ∈ (sync_tag cfg noFailures cm cf fs0).fs := by
    intro be hbe fe hfe
    have hcur : get_target_path cfg.output_path be.2 fe.1
        ∈ current_files cfg cm :=
      mem_current_files_iff.mpr ⟨be, hbe, fe, hfe, rfl⟩
    have hfs1mem : get_target_path cfg.output_path be.2 fe.1 ∈ fs1 := by
      by_cases hneed : needs_update (load_metadata_cache cf).1 be.1 be.2 fe.1
          fe.2 (osPathExists fs0 (get_target_path cfg.output_path be.2 fe.1))
          = true
      · refine (run_materialize_noFail_mem hmethod h1).mpr (Or.inl ?_)
        exact ⟨_, mem_to_process_iff.mpr ⟨be, hbe, fe, hfe, hneed, rfl⟩, rfl⟩
      · have hex := needs_update_eq_false_exists
          (Bool.eq_false_iff.mpr hneed)
        rw [osPathExists, decide_eq_true_eq] at hex
        exact (run_materialize_noFail_mem hmethod h1).mpr (Or.inr hex)
    have hno : get_target_path cfg.output_path be.2 fe.1
        ∉ to_remove cfg cm fs0 := by
      intro hin
      exact absurd hcur (mem_to_remove_iff.mp hin).2.2.2
    exact (hmem _).mpr
      (Or.inr (mem_apply_removals.mpr ⟨hfs1mem, fun hin => absurd hin hno⟩))
  constructor
  · rw [List.eq_nil_iff_forall_not_mem]
    intro x hx
    obtain ⟨be, hbe, fe, hfe, hneed, _⟩ := mem_to_process_iff.mp hx
    have hl1 : lookup? (toString be.1) (cm.map fun e => (toString e.1, e.2))
        = some be.2 := by
      refine lookup?_eq_some_of_mem ?_ (List.mem_map.mpr ⟨be, hbe, rfl⟩)
      simpa [List.map_map, Function.comp] using hkeys
    have hl2 : lookup? fe.1 (be.2).formats = some fe.2 :=
      lookup?_eq_some_of_mem (hfmts be hbe) hfe
    have hfalse : needs_update
        (load_metadata_cache
          (CacheFileState.parsed (cm.map fun e => (toString e.1, e.2)))).1
        be.1 be.2 fe.1 fe.2
        (osPathExists (sync_tag cfg noFailures cm cf fs0).fs
          (get_target_path cfg.output_path be.2 fe.1)) = false := by
      simp only [load_metadata_cache]
      unfold needs_update
      simp [hl1, hl2, osPathExists, htgt be hbe fe hfe]
    rw [hneed] at hfalse
    cases hfalse
  · rw [List.eq_nil_iff_forall_not_mem]
    intro p hp
    obtain ⟨hpfs, hu, hr, hnc⟩ := mem_to_remove_iff.mp hp
    rcases (hmem p).mp hpfs with rfl | hp2
    · rw [recognizedExt_metadata_cache_file] at hr
      cases hr
    · have hp3 := mem_apply_removals.mp hp2
      rcases run_materialize_mem_le h1 hp3.1 with ⟨it, hit, rfl⟩ | hfs0mem
      · obtain ⟨be, hbe, fe, hfe, _, heq⟩ := mem_to_process_iff.mp hit
        refine hnc ?_
        rw [heq]
        exact mem_current_files_iff.mpr ⟨be, hbe, fe, hfe, rfl⟩
      · have hnin : p ∉ to_remove cfg cm fs0 := by
          intro hin
          simpa [noFailures] using hp3.2 hin
        exact hnin (mem_to_remove_iff.mpr ⟨hfs0mem, hu, hr, hnc⟩)

/-- C1 witness: a concrete first pass after which the second pass's
`to_process` and `to_remove` are both empty. -/
theorem C1_second_pass_empty_witness :
    to_process cfg0 [(2, annualBook)]
      (load_metadata_cache (CacheFileState.parsed [("2", annualBook)])).1
      (sync_tag cfg0 noFailures [(2, annualBook)] CacheFileState.missing
        ["out/old.cbz"]).fs = []
    ∧ to_remove cfg0 [(2, annualBook)]
      (sync_tag cfg0 noFailures [(2, annualBook)] CacheFileState.missing
        ["out/old.cbz"]).fs = [] :=
  (C1_second_pass_empty cfg0 [(2, annualBook)] CacheFileState.missing
    ["out/old.cbz"] (by decide) (by decide) (by decide)).2
    [("2", annualBook)] (by decide)

end CalibreSync
